import Mathlib

/-!
Verification of the box layout algorithm of `layout/boxlayout.go`
(vertical and horizontal box layouts with growable children and spacers).

The geometry is modelled over `ℚ` (the source uses `float32`; all claims are
about the exact space-distribution arithmetic, which we embed exactly).
A canvas object is modelled by the capabilities the layout reads and the
position/size state it mutates via `Move`/`Resize`.
-/

namespace BoxLayout

/-- Model of `fyne.Size`: a width/height pair. -/
structure Size where
  width : ℚ
  height : ℚ
  deriving DecidableEq, Repr

/-- Model of `fyne.Position`: an x/y pair. -/
structure Pos where
  x : ℚ
  y : ℚ
  deriving DecidableEq, Repr

/-- A canvas object as seen by the box layout: visibility, minimum size,
the optional `fyne.Growable` capability (`grow = some g` means the object
implements `Growable` with `GrowFactor() = g`), the optional `SpacerObject`
capability (`spacer = some (eh, ev)` means it implements `SpacerObject`
with `ExpandHorizontal() = eh` and `ExpandVertical() = ev`), and the
mutable position/size state. -/
structure Child where
  visible : Bool
  minWidth : ℚ
  minHeight : ℚ
  grow : Option ℚ
  spacer : Option (Bool × Bool)
  pos : Pos
  size : Size
  deriving DecidableEq, Repr

/-- Model of `child.Move(p)`. -/
def Child.move (c : Child) (p : Pos) : Child := { c with pos := p }

/-- Model of `child.Resize(s)`. -/
def Child.resize (c : Child) (s : Size) : Child := { c with size := s }

/-- Model of `isVerticalSpacer`: the object implements `SpacerObject` and
`ExpandVertical()` returns true. -/
def isVerticalSpacer (c : Child) : Bool :=
  match c.spacer with
  | some s => s.2
  | none => false

/-- Model of `isHorizontalSpacer`: the object implements `SpacerObject` and
`ExpandHorizontal()` returns true. -/
def isHorizontalSpacer (c : Child) : Bool :=
  match c.spacer with
  | some s => s.1
  | none => false

/-- Accumulator of the first (measure) pass of `vBoxLayout.Layout`,
together with the children as mutated by that pass. -/
structure VMeasure where
  spacers : ℕ
  visibleObjects : ℕ
  totalMinHights : ℚ
  growFactors : ℚ
  objs : List Child
  deriving Repr

/-- First pass of `vBoxLayout.Layout`: count spacers and visible objects,
sum minimum heights, accumulate grow weights (`GrowFactor() * max(minH, 1)`),
and resize each visible non-spacer non-growable child to
`(size.Width, minH)`. -/
def vMeasure (size : Size) : List Child → VMeasure
  | [] => ⟨0, 0, 0, 0, []⟩
  | c :: rest =>
    let r := vMeasure size rest
    if c.visible = false then
      { r with objs := c :: r.objs }
    else if isVerticalSpacer c then
      { r with spacers := r.spacers + 1, objs := c :: r.objs }
    else
      match c.grow with
      | some g =>
        { r with
          visibleObjects := r.visibleObjects + 1
          totalMinHights := r.totalMinHights + c.minHeight
          growFactors := r.growFactors + g * max c.minHeight 1
          objs := c :: r.objs }
      | none =>
        { r with
          visibleObjects := r.visibleObjects + 1
          totalMinHights := r.totalMinHights + c.minHeight
          objs := c.resize ⟨size.width, c.minHeight⟩ :: r.objs }

/-- The `extra` of `vBoxLayout.Layout`: space not taken up by visible objects
and inter-object padding. -/
def vExtra (padding : ℚ) (objects : List Child) (size : Size) : ℚ :=
  size.height - (vMeasure size objects).totalMinHights
    - padding * ((vMeasure size objects).visibleObjects - 1 : ℚ)

/-- The `hPerFactor` of `vBoxLayout.Layout`. -/
def vPerFactor (padding : ℚ) (objects : List Child) (size : Size) : ℚ :=
  if 0 < (vMeasure size objects).growFactors then
    vExtra padding objects size / (vMeasure size objects).growFactors
  else 0

/-- The `spacerSize` of `vBoxLayout.Layout`. -/
def vSpacerSize (padding : ℚ) (objects : List Child) (size : Size) : ℚ :=
  if 0 < (vMeasure size objects).spacers then
    vExtra padding objects size / ((vMeasure size objects).spacers : ℚ)
  else 0

/-- Second (place) pass of `vBoxLayout.Layout`: walk the children with a
cursor `y`, skipping invisible children, advancing by `spacerSize` at
vertical spacers, moving every other visible child to `(0, y)`, growing
growable children by `hPerFactor * g * minHeight`, and advancing the
cursor by `padding + height`. -/
def vPlace (padding spacerSize hPerFactor : ℚ) (size : Size) :
    ℚ → List Child → List Child
  | _, [] => []
  | y, c :: rest =>
    if c.visible = false then
      c :: vPlace padding spacerSize hPerFactor size y rest
    else if isVerticalSpacer c then
      c :: vPlace padding spacerSize hPerFactor size (y + spacerSize) rest
    else
      match c.grow with
      | some g =>
        let h := c.minHeight + hPerFactor * g * c.minHeight
        (c.move ⟨0, y⟩).resize ⟨size.width, h⟩ ::
          vPlace padding spacerSize hPerFactor size (y + padding + h) rest
      | none =>
        c.move ⟨0, y⟩ ::
          vPlace padding spacerSize hPerFactor size (y + padding + c.minHeight) rest

/-- Model of `vBoxLayout.Layout`: the padding provider is abstracted as the value
it returns for this call. -/
def vBoxLayout.Layout (padding : ℚ) (objects : List Child) (size : Size) :
    List Child :=
  vPlace padding (vSpacerSize padding objects size)
    (vPerFactor padding objects size) size 0 (vMeasure size objects).objs

/-- The accumulation loop of `vBoxLayout.MinSize` with its
`addPadding` flag. -/
def vMinSizeLoop (padding : ℚ) : Bool → Size → List Child → Size
  | _, acc, [] => acc
  | addPadding, acc, c :: rest =>
    if !c.visible || isVerticalSpacer c then
      vMinSizeLoop padding addPadding acc rest
    else
      vMinSizeLoop padding true
        ⟨max c.minWidth acc.width,
         acc.height + c.minHeight + (if addPadding then padding else 0)⟩ rest

/-- Model of `vBoxLayout.MinSize`. -/
def vBoxLayout.MinSize (padding : ℚ) (objects : List Child) : Size :=
  vMinSizeLoop padding false ⟨0, 0⟩ objects

/-- Accumulator of the first (measure) pass of `hBoxLayout.Layout`,
together with the children as mutated by that pass. -/
structure HMeasure where
  spacers : ℕ
  visibleObjects : ℕ
  totalMinWidths : ℚ
  growFactors : ℚ
  objs : List Child
  deriving Repr

/-- First pass of `hBoxLayout.Layout`. -/
def hMeasure (size : Size) : List Child → HMeasure
  | [] => ⟨0, 0, 0, 0, []⟩
  | c :: rest =>
    let r := hMeasure size rest
    if c.visible = false then
      { r with objs := c :: r.objs }
    else if isHorizontalSpacer c then
      { r with spacers := r.spacers + 1, objs := c :: r.objs }
    else
      match c.grow with
      | some g =>
        { r with
          visibleObjects := r.visibleObjects + 1
          totalMinWidths := r.totalMinWidths + c.minWidth
          growFactors := r.growFactors + g * max c.minWidth 1
          objs := c :: r.objs }
      | none =>
        { r with
          visibleObjects := r.visibleObjects + 1
          totalMinWidths := r.totalMinWidths + c.minWidth
          objs := c.resize ⟨c.minWidth, size.height⟩ :: r.objs }

/-- The `extra` of `hBoxLayout.Layout`. -/
def hExtra (padding : ℚ) (objects : List Child) (size : Size) : ℚ :=
  size.width - (hMeasure size objects).totalMinWidths
    - padding * ((hMeasure size objects).visibleObjects - 1 : ℚ)

/-- The `wPerFactor` of `hBoxLayout.Layout`. -/
def hPerFactor (padding : ℚ) (objects : List Child) (size : Size) : ℚ :=
  if 0 < (hMeasure size objects).growFactors then
    hExtra padding objects size / (hMeasure size objects).growFactors
  else 0

/-- The `spacerSize` of `hBoxLayout.Layout`. -/
def hSpacerSize (padding : ℚ) (objects : List Child) (size : Size) : ℚ :=
  if 0 < (hMeasure size objects).spacers then
    hExtra padding objects size / ((hMeasure size objects).spacers : ℚ)
  else 0

/-- Second (place) pass of `hBoxLayout.Layout`. -/
def hPlace (padding spacerSize wPerFactor : ℚ) (size : Size) :
    ℚ → List Child → List Child
  | _, [] => []
  | x, c :: rest =>
    if c.visible = false then
      c :: hPlace padding spacerSize wPerFactor size x rest
    else if isHorizontalSpacer c then
      c :: hPlace padding spacerSize wPerFactor size (x + spacerSize) rest
    else
      match c.grow with
      | some g =>
        let w := c.minWidth + wPerFactor * g * c.minWidth
        (c.move ⟨x, 0⟩).resize ⟨w, size.height⟩ ::
          hPlace padding spacerSize wPerFactor size (x + padding + w) rest
      | none =>
        c.move ⟨x, 0⟩ ::
          hPlace padding spacerSize wPerFactor size (x + padding + c.minWidth) rest

/-- Model of `hBoxLayout.Layout`. -/
def hBoxLayout.Layout (padding : ℚ) (objects : List Child) (size : Size) :
    List Child :=
  hPlace padding (hSpacerSize padding objects size)
    (hPerFactor padding objects size) size 0 (hMeasure size objects).objs

/-- The accumulation loop of `hBoxLayout.MinSize` with its
`addPadding` flag. -/
def hMinSizeLoop (padding : ℚ) : Bool → Size → List Child → Size
  | _, acc, [] => acc
  | addPadding, acc, c :: rest =>
    if !c.visible || isHorizontalSpacer c then
      hMinSizeLoop padding addPadding acc rest
    else
      hMinSizeLoop padding true
        ⟨acc.width + c.minWidth + (if addPadding then padding else 0),
         max c.minHeight acc.height⟩ rest

/-- Model of `hBoxLayout.MinSize`. -/
def hBoxLayout.MinSize (padding : ℚ) (objects : List Child) : Size :=
  hMinSizeLoop padding false ⟨0, 0⟩ objects

/-- Swap the two axes of a size. -/
def Size.swap (s : Size) : Size := ⟨s.height, s.width⟩

/-- Swap the two axes of a position. -/
def Pos.swap (p : Pos) : Pos := ⟨p.y, p.x⟩

/-- Swap the two axes of a child: minimum size, position, size, and the
spacer expansion directions. -/
def Child.swap (c : Child) : Child :=
  { visible := c.visible
    minWidth := c.minHeight
    minHeight := c.minWidth
    grow := c.grow
    spacer := c.spacer.map (fun s => (s.2, s.1))
    pos := c.pos.swap
    size := c.size.swap }

/-! ### Basic facts about the mutators and the pass steps -/

theorem Child.visible_resize (c : Child) (s : Size) : (c.resize s).visible = c.visible := rfl

theorem Child.visible_move (c : Child) (p : Pos) : (c.move p).visible = c.visible := rfl

theorem isVerticalSpacer_resize (c : Child) (s : Size) :
    isVerticalSpacer (c.resize s) = isVerticalSpacer c := rfl

theorem isVerticalSpacer_move (c : Child) (p : Pos) :
    isVerticalSpacer (c.move p) = isVerticalSpacer c := rfl

theorem vMeasure_cons_invisible (s : Size) (c : Child) (l : List Child)
    (h : c.visible = false) :
    vMeasure s (c :: l) = { vMeasure s l with objs := c :: (vMeasure s l).objs } := by
  simp [vMeasure, h]

theorem vMeasure_cons_spacer (s : Size) (c : Child) (l : List Child)
    (hv : c.visible = true) (hs : isVerticalSpacer c = true) :
    vMeasure s (c :: l) =
      { vMeasure s l with
        spacers := (vMeasure s l).spacers + 1
        objs := c :: (vMeasure s l).objs } := by
  simp [vMeasure, hv, hs]

theorem vMeasure_cons_grow (s : Size) (c : Child) (l : List Child) (g : ℚ)
    (hv : c.visible = true) (hs : isVerticalSpacer c = false) (hg : c.grow = some g) :
    vMeasure s (c :: l) =
      { vMeasure s l with
        visibleObjects := (vMeasure s l).visibleObjects + 1
        totalMinHights := (vMeasure s l).totalMinHights + c.minHeight
        growFactors := (vMeasure s l).growFactors + g * max c.minHeight 1
        objs := c :: (vMeasure s l).objs } := by
  simp [vMeasure, hv, hs, hg]

theorem vMeasure_cons_ord (s : Size) (c : Child) (l : List Child)
    (hv : c.visible = true) (hs : isVerticalSpacer c = false) (hg : c.grow = none) :
    vMeasure s (c :: l) =
      { vMeasure s l with
        visibleObjects := (vMeasure s l).visibleObjects + 1
        totalMinHights := (vMeasure s l).totalMinHights + c.minHeight
        objs := c.resize ⟨s.width, c.minHeight⟩ :: (vMeasure s l).objs } := by
  simp [vMeasure, hv, hs, hg]

theorem vPlace_cons_invisible (p ss hf : ℚ) (s : Size) (y : ℚ) (c : Child)
    (l : List Child) (h : c.visible = false) :
    vPlace p ss hf s y (c :: l) = c :: vPlace p ss hf s y l := by
  simp [vPlace, h]

theorem vPlace_cons_spacer (p ss hf : ℚ) (s : Size) (y : ℚ) (c : Child)
    (l : List Child) (hv : c.visible = true) (hs : isVerticalSpacer c = true) :
    vPlace p ss hf s y (c :: l) = c :: vPlace p ss hf s (y + ss) l := by
  simp [vPlace, hv, hs]

theorem vPlace_cons_grow (p ss hf : ℚ) (s : Size) (y : ℚ) (c : Child)
    (l : List Child) (g : ℚ)
    (hv : c.visible = true) (hs : isVerticalSpacer c = false) (hg : c.grow = some g) :
    vPlace p ss hf s y (c :: l) =
      (c.move ⟨0, y⟩).resize ⟨s.width, c.minHeight + hf * g * c.minHeight⟩ ::
        vPlace p ss hf s (y + p + (c.minHeight + hf * g * c.minHeight)) l := by
  simp [vPlace, hv, hs, hg]

theorem vPlace_cons_ord (p ss hf : ℚ) (s : Size) (y : ℚ) (c : Child)
    (l : List Child)
    (hv : c.visible = true) (hs : isVerticalSpacer c = false) (hg : c.grow = none) :
    vPlace p ss hf s y (c :: l) =
      c.move ⟨0, y⟩ :: vPlace p ss hf s (y + p + c.minHeight) l := by
  simp [vPlace, hv, hs, hg]

/-! ### Invisible children are skipped by every pass -/

theorem vMeasure_filter_visible (s : Size) (l : List Child) :
    vMeasure s (l.filter (fun c => c.visible)) =
      ⟨(vMeasure s l).spacers, (vMeasure s l).visibleObjects,
       (vMeasure s l).totalMinHights, (vMeasure s l).growFactors,
       (vMeasure s l).objs.filter (fun c => c.visible)⟩ := by
  induction l with
  | nil => rfl
  | cons c l ih =>
    by_cases hv : c.visible = true
    · rw [List.filter_cons_of_pos (by simp [hv])]
      by_cases hs : isVerticalSpacer c = true
      · rw [vMeasure_cons_spacer _ _ _ hv hs, vMeasure_cons_spacer _ _ _ hv hs, ih]
        simp [hv]
      · rcases hg : c.grow with _ | g
        · rw [vMeasure_cons_ord _ _ _ hv (by simpa using hs) hg,
            vMeasure_cons_ord _ _ _ hv (by simpa using hs) hg, ih]
          simp [Child.resize, hv]
        · rw [vMeasure_cons_grow _ _ _ _ hv (by simpa using hs) hg,
            vMeasure_cons_grow _ _ _ _ hv (by simpa using hs) hg, ih]
          simp [hv]
    · have hv' : c.visible = false := by simpa using hv
      rw [List.filter_cons_of_neg (by simp [hv']), vMeasure_cons_invisible _ _ _ hv', ih]
      simp [hv']

theorem vExtra_filter_visible (p : ℚ) (l : List Child) (s : Size) :
    vExtra p (l.filter (fun c => c.visible)) s = vExtra p l s := by
  simp [vExtra, vMeasure_filter_visible]

theorem vPerFactor_filter_visible (p : ℚ) (l : List Child) (s : Size) :
    vPerFactor p (l.filter (fun c => c.visible)) s = vPerFactor p l s := by
  simp [vPerFactor, vMeasure_filter_visible, vExtra_filter_visible]

theorem vSpacerSize_filter_visible (p : ℚ) (l : List Child) (s : Size) :
    vSpacerSize p (l.filter (fun c => c.visible)) s = vSpacerSize p l s := by
  simp [vSpacerSize, vMeasure_filter_visible, vExtra_filter_visible]

theorem vPlace_filter_visible (p ss hf : ℚ) (s : Size) (y : ℚ) (l : List Child) :
    vPlace p ss hf s y (l.filter (fun c => c.visible)) =
      (vPlace p ss hf s y l).filter (fun c => c.visible) := by
  induction l generalizing y with
  | nil => rfl
  | cons c l ih =>
    by_cases hv : c.visible = true
    · rw [List.filter_cons_of_pos (by simp [hv])]
      by_cases hs : isVerticalSpacer c = true
      · rw [vPlace_cons_spacer _ _ _ _ _ _ _ hv hs, vPlace_cons_spacer _ _ _ _ _ _ _ hv hs,
          List.filter_cons_of_pos (by simp [hv]), ih]
      · rcases hg : c.grow with _ | g
        · rw [vPlace_cons_ord _ _ _ _ _ _ _ hv (by simpa using hs) hg,
            vPlace_cons_ord _ _ _ _ _ _ _ hv (by simpa using hs) hg,
            List.filter_cons_of_pos (by simp [Child.move, hv]), ih]
        · rw [vPlace_cons_grow _ _ _ _ _ _ _ _ hv (by simpa using hs) hg,
            vPlace_cons_grow _ _ _ _ _ _ _ _ hv (by simpa using hs) hg,
            List.filter_cons_of_pos (by simp [Child.move, Child.resize, hv]), ih]
    · have hv' : c.visible = false := by simpa using hv
      rw [List.filter_cons_of_neg (by simp [hv']), vPlace_cons_invisible _ _ _ _ _ _ _ hv',
        List.filter_cons_of_neg (by simp [hv']), ih]

theorem vLayout_filter_visible (p : ℚ) (l : List Child) (s : Size) :
    vBoxLayout.Layout p (l.filter (fun c => c.visible)) s =
      (vBoxLayout.Layout p l s).filter (fun c => c.visible) := by
  unfold vBoxLayout.Layout
  rw [vPerFactor_filter_visible, vSpacerSize_filter_visible, vMeasure_filter_visible,
    vPlace_filter_visible]

theorem vMinSizeLoop_cons_skip (p : ℚ) (flag : Bool) (acc : Size) (c : Child)
    (l : List Child) (h : c.visible = false ∨ isVerticalSpacer c = true) :
    vMinSizeLoop p flag acc (c :: l) = vMinSizeLoop p flag acc l := by
  rcases h with h | h <;> simp [vMinSizeLoop, h]

theorem vMinSizeLoop_cons_keep (p : ℚ) (flag : Bool) (acc : Size) (c : Child)
    (l : List Child) (hv : c.visible = true) (hs : isVerticalSpacer c = false) :
    vMinSizeLoop p flag acc (c :: l) =
      vMinSizeLoop p true
        ⟨max c.minWidth acc.width,
         acc.height + c.minHeight + (if flag then p else 0)⟩ l := by
  simp [vMinSizeLoop, hv, hs]

theorem vMinSizeLoop_filter_visible (p : ℚ) (flag : Bool) (acc : Size) (l : List Child) :
    vMinSizeLoop p flag acc (l.filter (fun c => c.visible)) = vMinSizeLoop p flag acc l := by
  induction l generalizing flag acc with
  | nil => rfl
  | cons c l ih =>
    by_cases hv : c.visible = true
    · rw [List.filter_cons_of_pos (by simp [hv])]
      by_cases hs : isVerticalSpacer c = true
      · rw [vMinSizeLoop_cons_skip _ _ _ _ _ (Or.inr hs),
          vMinSizeLoop_cons_skip _ _ _ _ _ (Or.inr hs)]
        exact ih _ _
      · rw [vMinSizeLoop_cons_keep _ _ _ _ _ hv (by simpa using hs),
          vMinSizeLoop_cons_keep _ _ _ _ _ hv (by simpa using hs)]
        exact ih _ _
    · have hv' : c.visible = false := by simpa using hv
      rw [List.filter_cons_of_neg (by simp [hv']),
        vMinSizeLoop_cons_skip _ _ _ _ _ (Or.inl hv')]
      exact ih _ _

/-- Relation between an input child and its counterpart after a pass:
visibility and spacer status are preserved, and an invisible child or a
vertical spacer is returned entirely unchanged. -/
def untouched (a b : Child) : Prop :=
  b.visible = a.visible ∧ isVerticalSpacer b = isVerticalSpacer a ∧
    ((a.visible = false ∨ isVerticalSpacer a = true) → b = a)

theorem vMeasure_objs_untouched (s : Size) (l : List Child) :
    List.Forall₂ untouched l (vMeasure s l).objs := by
  induction l with
  | nil => exact List.Forall₂.nil
  | cons c l ih =>
    by_cases hv : c.visible = true
    · by_cases hs : isVerticalSpacer c = true
      · rw [vMeasure_cons_spacer _ _ _ hv hs]
        exact List.Forall₂.cons ⟨rfl, rfl, fun _ => rfl⟩ ih
      · rcases hg : c.grow with _ | g
        · rw [vMeasure_cons_ord _ _ _ hv (by simpa using hs) hg]
          refine List.Forall₂.cons ⟨rfl, rfl, fun h => ?_⟩ ih
          rcases h with h | h
          · rw [hv] at h; cases h
          · exact absurd h hs
        · rw [vMeasure_cons_grow _ _ _ _ hv (by simpa using hs) hg]
          exact List.Forall₂.cons ⟨rfl, rfl, fun _ => rfl⟩ ih
    · have hv' : c.visible = false := by simpa using hv
      rw [vMeasure_cons_invisible _ _ _ hv']
      exact List.Forall₂.cons ⟨rfl, rfl, fun _ => rfl⟩ ih

theorem vPlace_untouched (p ss hf : ℚ) (s : Size) (y : ℚ) {l m : List Child}
    (h : List.Forall₂ untouched l m) :
    List.Forall₂ untouched l (vPlace p ss hf s y m) := by
  induction h generalizing y with
  | nil => exact List.Forall₂.nil
  | @cons a b l m hab hlm ih =>
    obtain ⟨hvis, hsp, heq⟩ := hab
    by_cases hv : b.visible = true
    · by_cases hs : isVerticalSpacer b = true
      · rw [vPlace_cons_spacer _ _ _ _ _ _ _ hv hs]
        exact List.Forall₂.cons ⟨hvis, hsp, heq⟩ (ih _)
      · rcases hg : b.grow with _ | g
        · rw [vPlace_cons_ord _ _ _ _ _ _ _ hv (by simpa using hs) hg]
          refine List.Forall₂.cons ⟨hvis, hsp, fun hcase => ?_⟩ (ih _)
          rcases hcase with hcase | hcase
          · rw [hcase] at hvis; rw [hvis] at hv; cases hv
          · rw [hcase] at hsp; exact absurd hsp hs
        · rw [vPlace_cons_grow _ _ _ _ _ _ _ _ hv (by simpa using hs) hg]
          refine List.Forall₂.cons ⟨hvis, hsp, fun hcase => ?_⟩ (ih _)
          rcases hcase with hcase | hcase
          · rw [hcase] at hvis; rw [hvis] at hv; cases hv
          · rw [hcase] at hsp; exact absurd hsp hs
    · have hv' : b.visible = false := by simpa using hv
      rw [vPlace_cons_invisible _ _ _ _ _ _ _ hv']
      exact List.Forall₂.cons ⟨hvis, hsp, heq⟩ (ih _)

theorem vLayout_untouched (p : ℚ) (l : List Child) (s : Size) :
    List.Forall₂ untouched l (vBoxLayout.Layout p l s) :=
  vPlace_untouched _ _ _ _ _ (vMeasure_objs_untouched s l)

/-! ### Cross-axis sizing -/

theorem vMeasure_objs_width (s : Size) (l : List Child) :
    ∀ b ∈ (vMeasure s l).objs, b.visible = true → isVerticalSpacer b = false →
      b.grow = none → b.size.width = s.width := by
  induction l with
  | nil => intro b hb; cases hb
  | cons c l ih =>
    by_cases hv : c.visible = true
    · by_cases hs : isVerticalSpacer c = true
      · rw [vMeasure_cons_spacer _ _ _ hv hs]
        intro b hb hbv hbs hbg
        rcases List.mem_cons.mp hb with rfl | hb
        · rw [hs] at hbs; cases hbs
        · exact ih b hb hbv hbs hbg
      · rcases hg : c.grow with _ | g
        · rw [vMeasure_cons_ord _ _ _ hv (by simpa using hs) hg]
          intro b hb hbv hbs hbg
          rcases List.mem_cons.mp hb with rfl | hb
          · rfl
          · exact ih b hb hbv hbs hbg
        · rw [vMeasure_cons_grow _ _ _ _ hv (by simpa using hs) hg]
          intro b hb hbv hbs hbg
          rcases List.mem_cons.mp hb with rfl | hb
          · rw [hg] at hbg; cases hbg
          · exact ih b hb hbv hbs hbg
    · have hv' : c.visible = false := by simpa using hv
      rw [vMeasure_cons_invisible _ _ _ hv']
      intro b hb hbv hbs hbg
      rcases List.mem_cons.mp hb with rfl | hb
      · rw [hv'] at hbv; cases hbv
      · exact ih b hb hbv hbs hbg

theorem vPlace_width (p ss hf : ℚ) (s : Size) (y : ℚ) (l : List Child)
    (hin : ∀ b ∈ l, b.visible = true → isVerticalSpacer b = false →
      b.grow = none → b.size.width = s.width) :
    ∀ b ∈ vPlace p ss hf s y l, b.visible = true → isVerticalSpacer b = false →
      b.size.width = s.width := by
  induction l generalizing y with
  | nil => intro b hb; cases hb
  | cons c l ih =>
    have hin' : ∀ b ∈ l, b.visible = true → isVerticalSpacer b = false →
        b.grow = none → b.size.width = s.width :=
      fun b hb => hin b (List.mem_cons_of_mem _ hb)
    by_cases hv : c.visible = true
    · by_cases hs : isVerticalSpacer c = true
      · rw [vPlace_cons_spacer _ _ _ _ _ _ _ hv hs]
        intro b hb hbv hbs
        rcases List.mem_cons.mp hb with rfl | hb
        · rw [hs] at hbs; cases hbs
        · exact ih _ hin' b hb hbv hbs
      · rcases hg : c.grow with _ | g
        · rw [vPlace_cons_ord _ _ _ _ _ _ _ hv (by simpa using hs) hg]
          intro b hb hbv hbs
          rcases List.mem_cons.mp hb with rfl | hb
          · exact hin c (List.mem_cons_self _ _) hv (by simpa using hs) hg
          · exact ih _ hin' b hb hbv hbs
        · rw [vPlace_cons_grow _ _ _ _ _ _ _ _ hv (by simpa using hs) hg]
          intro b hb hbv hbs
          rcases List.mem_cons.mp hb with rfl | hb
          · rfl
          · exact ih _ hin' b hb hbv hbs
    · have hv' : c.visible = false := by simpa using hv
      rw [vPlace_cons_invisible _ _ _ _ _ _ _ hv']
      intro b hb hbv hbs
      rcases List.mem_cons.mp hb with rfl | hb
      · rw [hv'] at hbv; cases hbv
      · exact ih _ hin' b hb hbv hbs

theorem vLayout_width (p : ℚ) (l : List Child) (s : Size) :
    ∀ b ∈ vBoxLayout.Layout p l s, b.visible = true → isVerticalSpacer b = false →
      b.size.width = s.width :=
  vPlace_width _ _ _ _ _ _ (vMeasure_objs_width s l)

/-! ### The horizontal variant is the vertical one with the axes swapped -/

theorem size_swap_involution (s : Size) : s.swap.swap = s := rfl

theorem pos_swap_involution (p : Pos) : p.swap.swap = p := rfl

theorem child_swap_involution (c : Child) : c.swap.swap = c := by
  cases c with
  | mk v mw mh g sp pp sz => cases sp <;> rfl

theorem isVerticalSpacer_swap (c : Child) :
    isVerticalSpacer c.swap = isHorizontalSpacer c := by
  cases hc : c.spacer <;> simp [isVerticalSpacer, isHorizontalSpacer, Child.swap, hc]

theorem isHorizontalSpacer_swap (c : Child) :
    isHorizontalSpacer c.swap = isVerticalSpacer c := by
  cases hc : c.spacer <;> simp [isVerticalSpacer, isHorizontalSpacer, Child.swap, hc]

theorem Child.swap_resize (c : Child) (s : Size) :
    (c.resize s).swap = c.swap.resize s.swap := rfl

theorem Child.swap_move (c : Child) (p : Pos) :
    (c.move p).swap = c.swap.move p.swap := rfl

theorem hMeasure_swap (s : Size) (l : List Child) :
    vMeasure s.swap (l.map Child.swap) =
      ⟨(hMeasure s l).spacers, (hMeasure s l).visibleObjects,
       (hMeasure s l).totalMinWidths, (hMeasure s l).growFactors,
       (hMeasure s l).objs.map Child.swap⟩ := by
  induction l with
  | nil => rfl
  | cons c l ih =>
    simp only [List.map_cons]
    have hvs : c.swap.visible = c.visible := rfl
    by_cases hv : c.visible = true
    · by_cases hs : isHorizontalSpacer c = true
      · rw [vMeasure_cons_spacer s.swap c.swap (List.map Child.swap l)
            (hvs.trans hv) ((isVerticalSpacer_swap c).trans hs), ih]
        simp [hMeasure, hv, hs]
      · have hs' : isHorizontalSpacer c = false := by simpa using hs
        rcases hg : c.grow with _ | g
        · rw [vMeasure_cons_ord s.swap c.swap (List.map Child.swap l)
              (hvs.trans hv) ((isVerticalSpacer_swap c).trans hs') hg, ih]
          simp [hMeasure, hv, hs', hg, Child.swap, Child.resize, Size.swap]
        · rw [vMeasure_cons_grow s.swap c.swap (List.map Child.swap l) g
              (hvs.trans hv) ((isVerticalSpacer_swap c).trans hs') hg, ih]
          simp [hMeasure, hv, hs', hg, Child.swap]
    · have hv' : c.visible = false := by simpa using hv
      rw [vMeasure_cons_invisible s.swap c.swap (List.map Child.swap l) (hvs.trans hv'), ih]
      simp [hMeasure, hv']

theorem hExtra_swap (p : ℚ) (l : List Child) (s : Size) :
    vExtra p (l.map Child.swap) s.swap = hExtra p l s := by
  unfold vExtra hExtra
  rw [hMeasure_swap]
  rfl

theorem hPerFactor_swap (p : ℚ) (l : List Child) (s : Size) :
    vPerFactor p (l.map Child.swap) s.swap = hPerFactor p l s := by
  simp [vPerFactor, hPerFactor, hMeasure_swap, hExtra_swap]

theorem hSpacerSize_swap (p : ℚ) (l : List Child) (s : Size) :
    vSpacerSize p (l.map Child.swap) s.swap = hSpacerSize p l s := by
  simp [vSpacerSize, hSpacerSize, hMeasure_swap, hExtra_swap]

theorem hPlace_swap (p ss hf : ℚ) (s : Size) (y : ℚ) (l : List Child) :
    vPlace p ss hf s.swap y (l.map Child.swap) =
      (hPlace p ss hf s y l).map Child.swap := by
  induction l generalizing y with
  | nil => rfl
  | cons c l ih =>
    simp only [List.map_cons]
    have hvs : c.swap.visible = c.visible := rfl
    by_cases hv : c.visible = true
    · by_cases hs : isHorizontalSpacer c = true
      · rw [vPlace_cons_spacer p ss hf s.swap y c.swap (List.map Child.swap l)
            (hvs.trans hv) ((isVerticalSpacer_swap c).trans hs), ih]
        simp [hPlace, hv, hs]
      · have hs' : isHorizontalSpacer c = false := by simpa using hs
        rcases hg : c.grow with _ | g
        · rw [vPlace_cons_ord p ss hf s.swap y c.swap (List.map Child.swap l)
              (hvs.trans hv) ((isVerticalSpacer_swap c).trans hs') hg, ih]
          simp [hPlace, hv, hs', hg, Child.swap, Child.move, Pos.swap]
        · rw [vPlace_cons_grow p ss hf s.swap y c.swap (List.map Child.swap l) g
              (hvs.trans hv) ((isVerticalSpacer_swap c).trans hs') hg, ih]
          simp [hPlace, hv, hs', hg, Child.swap, Child.move, Child.resize, Pos.swap, Size.swap]
    · have hv' : c.visible = false := by simpa using hv
      rw [vPlace_cons_invisible p ss hf s.swap y c.swap (List.map Child.swap l)
          (hvs.trans hv'), ih]
      simp [hPlace, hv']

theorem hLayout_swap (p : ℚ) (l : List Child) (s : Size) :
    hBoxLayout.Layout p l s =
      (vBoxLayout.Layout p (l.map Child.swap) s.swap).map Child.swap := by
  unfold hBoxLayout.Layout vBoxLayout.Layout
  rw [hPerFactor_swap, hSpacerSize_swap, hMeasure_swap, hPlace_swap, List.map_map]
  have hid : Child.swap ∘ Child.swap = id := funext child_swap_involution
  rw [hid, List.map_id]

theorem hMinSizeLoop_swap (p : ℚ) (flag : Bool) (acc : Size) (l : List Child) :
    vMinSizeLoop p flag acc.swap (l.map Child.swap) = (hMinSizeLoop p flag acc l).swap := by
  induction l generalizing flag acc with
  | nil => rfl
  | cons c l ih =>
    simp only [List.map_cons]
    by_cases hskip : c.visible = false ∨ isHorizontalSpacer c = true
    · have hsk : c.swap.visible = false ∨ isVerticalSpacer c.swap = true := by
        rcases hskip with h | h
        · exact Or.inl h
        · exact Or.inr ((isVerticalSpacer_swap c).trans h)
      rw [vMinSizeLoop_cons_skip p flag acc.swap c.swap (List.map Child.swap l) hsk]
      have hrhs : hMinSizeLoop p flag acc (c :: l) = hMinSizeLoop p flag acc l := by
        rcases hskip with h | h <;> simp [hMinSizeLoop, h]
      rw [hrhs, ih]
    · push_neg at hskip
      obtain ⟨hv, hs⟩ := hskip
      have hv' : c.visible = true := by simpa using hv
      have hs' : isHorizontalSpacer c = false := by simpa using hs
      rw [vMinSizeLoop_cons_keep p flag acc.swap c.swap (List.map Child.swap l)
          hv' ((isVerticalSpacer_swap c).trans hs')]
      have hrhs : hMinSizeLoop p flag acc (c :: l) =
          hMinSizeLoop p true
            ⟨acc.width + c.minWidth + (if flag then p else 0),
             max c.minHeight acc.height⟩ l := by
        simp [hMinSizeLoop, hv', hs']
      rw [hrhs, ← ih]
      rfl

theorem hMinSize_swap (p : ℚ) (l : List Child) :
    hBoxLayout.MinSize p l = (vBoxLayout.MinSize p (l.map Child.swap)).swap := by
  have h : vMinSizeLoop p false ⟨0, 0⟩ (l.map Child.swap) =
      (hMinSizeLoop p false ⟨0, 0⟩ l).swap := hMinSizeLoop_swap p false ⟨0, 0⟩ l
  unfold hBoxLayout.MinSize vBoxLayout.MinSize
  rw [h, size_swap_involution]

/-! ### The MinSize formula -/

/-- The children `vBoxLayout.MinSize` and the `extra` computation count:
visible and not a vertical spacer. -/
def vKeep (c : Child) : Bool := c.visible && !isVerticalSpacer c

/-- The children `hBoxLayout.MinSize` counts: visible and not a horizontal
spacer. -/
def hKeep (c : Child) : Bool := c.visible && !isHorizontalSpacer c

theorem vMinSizeLoop_filter_keep (p : ℚ) (flag : Bool) (acc : Size) (l : List Child) :
    vMinSizeLoop p flag acc (l.filter vKeep) = vMinSizeLoop p flag acc l := by
  induction l generalizing flag acc with
  | nil => rfl
  | cons c l ih =>
    by_cases hk : vKeep c = true
    · obtain ⟨hv, hs⟩ := Bool.and_eq_true_iff.mp hk
      have hs' : isVerticalSpacer c = false := by simpa using hs
      rw [List.filter_cons_of_pos hk, vMinSizeLoop_cons_keep _ _ _ _ _ hv hs',
        vMinSizeLoop_cons_keep _ _ _ _ _ hv hs', ih]
    · have hskip : c.visible = false ∨ isVerticalSpacer c = true := by
        rcases Bool.and_eq_false_iff.mp (Bool.eq_false_iff.mpr hk) with h | h
        · exact Or.inl (by simpa using h)
        · exact Or.inr (by simpa using h)
      rw [List.filter_cons_of_neg (by simpa using hk),
        vMinSizeLoop_cons_skip _ _ _ _ _ hskip, ih]

theorem init_le_foldl_max (b : ℚ) (l : List ℚ) : b ≤ l.foldl max b := by
  induction l generalizing b with
  | nil => exact le_refl b
  | cons c l ih => exact le_trans (le_max_left b c) (ih (max b c))

theorem le_foldl_max (b : ℚ) (l : List ℚ) : ∀ a ∈ l, a ≤ l.foldl max b := by
  induction l generalizing b with
  | nil => intro a ha; cases ha
  | cons c l ih =>
    intro a ha
    rcases List.mem_cons.mp ha with rfl | ha
    · exact le_trans (le_max_right b a) (init_le_foldl_max _ _)
    · exact ih (max b c) a ha

theorem foldl_max_mem (b : ℚ) (l : List ℚ) : l.foldl max b ∈ b :: l := by
  induction l generalizing b with
  | nil => exact List.mem_singleton.mpr rfl
  | cons c l ih =>
    have h := ih (max b c)
    rcases List.mem_cons.mp h with h | h
    · rcases max_choice b c with hm | hm <;> rw [List.foldl_cons]
      · exact List.mem_cons.mpr (Or.inl (h.trans hm))
      · exact List.mem_cons.mpr (Or.inr (List.mem_cons.mpr (Or.inl (h.trans hm))))
    · exact List.mem_cons.mpr (Or.inr (List.mem_cons.mpr (Or.inr h)))

theorem vMinSizeLoop_true_formula (p : ℚ) (acc : Size) (l : List Child)
    (hall : ∀ c ∈ l, vKeep c = true) :
    vMinSizeLoop p true acc l =
      ⟨(l.map (fun c => c.minWidth)).foldl max acc.width,
       acc.height + (l.map (fun c => c.minHeight)).sum + p * l.length⟩ := by
  induction l generalizing acc with
  | nil => cases acc; simp [vMinSizeLoop]
  | cons c l ih =>
    obtain ⟨hv, hs⟩ := Bool.and_eq_true_iff.mp (hall c (List.mem_cons_self _ _))
    have hs' : isVerticalSpacer c = false := by simpa using hs
    rw [vMinSizeLoop_cons_keep _ _ _ _ _ hv hs',
      ih _ (fun d hd => hall d (List.mem_cons_of_mem _ hd))]
    have hmax : max c.minWidth acc.width = max acc.width c.minWidth := max_comm _ _
    simp only [List.map_cons, List.foldl_cons, List.sum_cons, List.length_cons, hmax]
    congr 1
    simp only [if_true]
    push_cast
    ring

theorem vMinSize_formula (p : ℚ) (l : List Child)
    (hall : ∀ c ∈ l, vKeep c = true) (hne : l ≠ []) :
    vBoxLayout.MinSize p l =
      ⟨(l.map (fun c => c.minWidth)).foldl max 0,
       (l.map (fun c => c.minHeight)).sum + p * ((l.length : ℚ) - 1)⟩ := by
  match l, hne with
  | c :: l, _ =>
    obtain ⟨hv, hs⟩ := Bool.and_eq_true_iff.mp (hall c (List.mem_cons_self _ _))
    have hs' : isVerticalSpacer c = false := by simpa using hs
    unfold vBoxLayout.MinSize
    rw [vMinSizeLoop_cons_keep _ _ _ _ _ hv hs',
      vMinSizeLoop_true_formula _ _ _ (fun d hd => hall d (List.mem_cons_of_mem _ hd))]
    have hmax : max c.minWidth (0 : ℚ) = max 0 c.minWidth := max_comm _ _
    simp only [List.map_cons, List.foldl_cons, List.sum_cons, List.length_cons, hmax]
    congr 1
    rw [if_neg Bool.false_ne_true]
    push_cast
    ring

/-! ### Independence of the spacer pool and the growable pool -/

/-- Keep everything except visible vertical spacers. -/
def noVSpacer (c : Child) : Bool := !(c.visible && isVerticalSpacer c)

theorem noVSpacer_resize (c : Child) (sz : Size) : noVSpacer (c.resize sz) = noVSpacer c := rfl

theorem noVSpacer_move (c : Child) (pp : Pos) : noVSpacer (c.move pp) = noVSpacer c := rfl

theorem vMeasure_filter_noVSpacer (s : Size) (l : List Child) :
    vMeasure s (l.filter noVSpacer) =
      ⟨0, (vMeasure s l).visibleObjects, (vMeasure s l).totalMinHights,
       (vMeasure s l).growFactors, (vMeasure s l).objs.filter noVSpacer⟩ := by
  induction l with
  | nil => rfl
  | cons c l ih =>
    by_cases hv : c.visible = true
    · by_cases hs : isVerticalSpacer c = true
      · have hns : noVSpacer c = false := by simp [noVSpacer, hv, hs]
        rw [List.filter_cons_of_neg (by simp [hns]), vMeasure_cons_spacer _ _ _ hv hs, ih]
        simp [hns]
      · have hs' : isVerticalSpacer c = false := by simpa using hs
        have hns : noVSpacer c = true := by simp [noVSpacer, hs']
        rw [List.filter_cons_of_pos hns]
        rcases hg : c.grow with _ | g
        · rw [vMeasure_cons_ord _ _ _ hv hs' hg, vMeasure_cons_ord _ _ _ hv hs' hg, ih]
          simp [noVSpacer_resize, hns]
        · rw [vMeasure_cons_grow _ _ _ _ hv hs' hg, vMeasure_cons_grow _ _ _ _ hv hs' hg, ih]
          simp [hns]
    · have hv' : c.visible = false := by simpa using hv
      have hns : noVSpacer c = true := by simp [noVSpacer, hv']
      rw [List.filter_cons_of_pos hns, vMeasure_cons_invisible _ _ _ hv',
        vMeasure_cons_invisible _ _ _ hv', ih]
      simp [hns]

theorem vExtra_filter_noVSpacer (p : ℚ) (l : List Child) (s : Size) :
    vExtra p (l.filter noVSpacer) s = vExtra p l s := by
  simp [vExtra, vMeasure_filter_noVSpacer]

theorem vPerFactor_filter_noVSpacer (p : ℚ) (l : List Child) (s : Size) :
    vPerFactor p (l.filter noVSpacer) s = vPerFactor p l s := by
  simp [vPerFactor, vMeasure_filter_noVSpacer, vExtra_filter_noVSpacer]

theorem vPlace_sizes_filter (p hf ss ss' y y' : ℚ) (s : Size) (l : List Child) :
    ((vPlace p ss hf s y l).filter noVSpacer).map (fun c => c.size) =
      (vPlace p ss' hf s y' (l.filter noVSpacer)).map (fun c => c.size) := by
  induction l generalizing y y' with
  | nil => rfl
  | cons c l ih =>
    by_cases hv : c.visible = true
    · by_cases hs : isVerticalSpacer c = true
      · have hns : noVSpacer c = false := by simp [noVSpacer, hv, hs]
        rw [vPlace_cons_spacer _ _ _ _ _ _ _ hv hs, List.filter_cons_of_neg (by simp [hns]),
          List.filter_cons_of_neg (by simp [hns])]
        exact ih _ _
      · have hs' : isVerticalSpacer c = false := by simpa using hs
        have hns : noVSpacer c = true := by simp [noVSpacer, hs']
        rw [List.filter_cons_of_pos hns]
        rcases hg : c.grow with _ | g
        · rw [vPlace_cons_ord _ _ _ _ _ _ _ hv hs' hg, vPlace_cons_ord _ _ _ _ _ _ _ hv hs' hg,
            List.filter_cons_of_pos ((noVSpacer_move c ⟨0, y⟩).trans hns)]
          simp only [List.map_cons]
          rw [ih (y + p + c.minHeight) (y' + p + c.minHeight)]
          rfl
        · rw [vPlace_cons_grow _ _ _ _ _ _ _ _ hv hs' hg, vPlace_cons_grow _ _ _ _ _ _ _ _ hv hs' hg,
            List.filter_cons_of_pos
              (((noVSpacer_resize _ _).trans (noVSpacer_move c ⟨0, y⟩)).trans hns)]
          simp only [List.map_cons]
          rw [ih (y + p + (c.minHeight + hf * g * c.minHeight))
            (y' + p + (c.minHeight + hf * g * c.minHeight))]
          rfl
    · have hv' : c.visible = false := by simpa using hv
      have hns : noVSpacer c = true := by simp [noVSpacer, hv']
      rw [List.filter_cons_of_pos hns, vPlace_cons_invisible _ _ _ _ _ _ _ hv',
        vPlace_cons_invisible _ _ _ _ _ _ _ hv', List.filter_cons_of_pos hns]
      simp only [List.map_cons]
      rw [ih y y']

theorem vLayout_sizes_noVSpacer (p : ℚ) (l : List Child) (s : Size) :
    ((vBoxLayout.Layout p l s).filter noVSpacer).map (fun c => c.size) =
      (vBoxLayout.Layout p (l.filter noVSpacer) s).map (fun c => c.size) := by
  unfold vBoxLayout.Layout
  rw [vPerFactor_filter_noVSpacer, vMeasure_filter_noVSpacer,
    vPlace_sizes_filter p (vPerFactor p l s) (vSpacerSize p l s)
      (vSpacerSize p (l.filter noVSpacer) s) 0 0 s]

/-- Remove the `fyne.Growable` capability from a child. -/
def stripGrow (c : Child) : Child := { c with grow := none }

theorem vMeasure_stripGrow (s : Size) (l : List Child) :
    (vMeasure s (l.map stripGrow)).spacers = (vMeasure s l).spacers ∧
      (vMeasure s (l.map stripGrow)).visibleObjects = (vMeasure s l).visibleObjects ∧
      (vMeasure s (l.map stripGrow)).totalMinHights = (vMeasure s l).totalMinHights := by
  induction l with
  | nil => exact ⟨rfl, rfl, rfl⟩
  | cons c l ih =>
    obtain ⟨ih1, ih2, ih3⟩ := ih
    simp only [List.map_cons]
    have hvs : (stripGrow c).visible = c.visible := rfl
    have hss : isVerticalSpacer (stripGrow c) = isVerticalSpacer c := rfl
    by_cases hv : c.visible = true
    · by_cases hs : isVerticalSpacer c = true
      · rw [vMeasure_cons_spacer s (stripGrow c) _ (hvs.trans hv) (hss.trans hs),
          vMeasure_cons_spacer s c _ hv hs]
        exact ⟨by simp [ih1], by simp [ih2], by simp [ih3]⟩
      · have hs' : isVerticalSpacer c = false := by simpa using hs
        have hord := vMeasure_cons_ord s (stripGrow c) (l.map stripGrow)
          (hvs.trans hv) (hss.trans hs') rfl
        rcases hg : c.grow with _ | g
        · rw [hord, vMeasure_cons_ord s c _ hv hs' hg]
          exact ⟨by simp [ih1], by simp [ih2], by simp [stripGrow, ih3]⟩
        · rw [hord, vMeasure_cons_grow s c _ g hv hs' hg]
          exact ⟨by simp [ih1], by simp [ih2], by simp [stripGrow, ih3]⟩
    · have hv' : c.visible = false := by simpa using hv
      rw [vMeasure_cons_invisible s (stripGrow c) _ (hvs.trans hv'),
        vMeasure_cons_invisible s c _ hv']
      exact ⟨by simp [ih1], by simp [ih2], by simp [ih3]⟩

theorem vExtra_stripGrow (p : ℚ) (l : List Child) (s : Size) :
    vExtra p (l.map stripGrow) s = vExtra p l s := by
  obtain ⟨h1, h2, h3⟩ := vMeasure_stripGrow s l
  simp [vExtra, h2, h3]

theorem vSpacerSize_stripGrow (p : ℚ) (l : List Child) (s : Size) :
    vSpacerSize p (l.map stripGrow) s = vSpacerSize p l s := by
  obtain ⟨h1, h2, h3⟩ := vMeasure_stripGrow s l
  simp [vSpacerSize, h1, vExtra_stripGrow]

/-! ### The vertical layout reads the spacer capability only through
`isVerticalSpacer` -/

/-- Two children that the vertical layout cannot distinguish: all consulted
capabilities agree (the spacer capability only through `isVerticalSpacer`)
and the mutable state agrees. -/
def sameV (a b : Child) : Prop :=
  a.visible = b.visible ∧ a.minWidth = b.minWidth ∧ a.minHeight = b.minHeight ∧
    a.grow = b.grow ∧ isVerticalSpacer a = isVerticalSpacer b ∧
    a.pos = b.pos ∧ a.size = b.size

theorem sameV_refl (a : Child) : sameV a a := ⟨rfl, rfl, rfl, rfl, rfl, rfl, rfl⟩

theorem vMeasure_congr (s : Size) {l l' : List Child} (h : List.Forall₂ sameV l l') :
    (vMeasure s l).spacers = (vMeasure s l').spacers ∧
      (vMeasure s l).visibleObjects = (vMeasure s l').visibleObjects ∧
      (vMeasure s l).totalMinHights = (vMeasure s l').totalMinHights ∧
      (vMeasure s l).growFactors = (vMeasure s l').growFactors ∧
      List.Forall₂ sameV (vMeasure s l).objs (vMeasure s l').objs := by
  induction h with
  | nil => exact ⟨rfl, rfl, rfl, rfl, List.Forall₂.nil⟩
  | @cons a b l l' hab hll ih =>
    obtain ⟨h1, h2, h3, h4, h5⟩ := ih
    obtain ⟨hvis, hmw, hmh, hgr, hsp, hpos, hsz⟩ := hab
    by_cases hv : a.visible = true
    · by_cases hs : isVerticalSpacer a = true
      · rw [vMeasure_cons_spacer s a l hv hs,
          vMeasure_cons_spacer s b l' (hvis.symm.trans hv) (hsp.symm.trans hs)]
        exact ⟨by simp [h1], h2, h3, h4,
          List.Forall₂.cons ⟨hvis, hmw, hmh, hgr, hsp, hpos, hsz⟩ h5⟩
      · have hs' : isVerticalSpacer a = false := by simpa using hs
        rcases hg : a.grow with _ | g
        · rw [vMeasure_cons_ord s a l hv hs' hg,
            vMeasure_cons_ord s b l' (hvis.symm.trans hv) (hsp.symm.trans hs')
              (hgr.symm.trans hg)]
          refine ⟨h1, by simp [h2], by rw [h3, hmh], h4, List.Forall₂.cons ?_ h5⟩
          exact ⟨hvis, hmw, hmh, hgr, hsp, hpos, by rw [hmh]; rfl⟩
        · rw [vMeasure_cons_grow s a l g hv hs' hg,
            vMeasure_cons_grow s b l' g (hvis.symm.trans hv) (hsp.symm.trans hs')
              (hgr.symm.trans hg)]
          exact ⟨h1, by simp [h2], by rw [h3, hmh], by rw [h4, hmh],
            List.Forall₂.cons ⟨hvis, hmw, hmh, hgr, hsp, hpos, hsz⟩ h5⟩
    · have hv' : a.visible = false := by simpa using hv
      rw [vMeasure_cons_invisible s a l hv',
        vMeasure_cons_invisible s b l' (hvis.symm.trans hv')]
      exact ⟨h1, h2, h3, h4,
        List.Forall₂.cons ⟨hvis, hmw, hmh, hgr, hsp, hpos, hsz⟩ h5⟩

theorem vPlace_congr (p ss hf : ℚ) (s : Size) {m m' : List Child}
    (h : List.Forall₂ sameV m m') (y : ℚ) :
    List.Forall₂ sameV (vPlace p ss hf s y m) (vPlace p ss hf s y m') := by
  induction h generalizing y with
  | nil => exact List.Forall₂.nil
  | @cons a b m m' hab hmm ih =>
    obtain ⟨hvis, hmw, hmh, hgr, hsp, hpos, hsz⟩ := hab
    by_cases hv : a.visible = true
    · by_cases hs : isVerticalSpacer a = true
      · rw [vPlace_cons_spacer p ss hf s y a m hv hs,
          vPlace_cons_spacer p ss hf s y b m' (hvis.symm.trans hv) (hsp.symm.trans hs)]
        exact List.Forall₂.cons ⟨hvis, hmw, hmh, hgr, hsp, hpos, hsz⟩ (ih _)
      · have hs' : isVerticalSpacer a = false := by simpa using hs
        rcases hg : a.grow with _ | g
        · rw [vPlace_cons_ord p ss hf s y a m hv hs' hg,
            vPlace_cons_ord p ss hf s y b m' (hvis.symm.trans hv) (hsp.symm.trans hs')
              (hgr.symm.trans hg)]
          refine List.Forall₂.cons ⟨hvis, hmw, hmh, hgr, hsp, rfl, hsz⟩ ?_
          rw [hmh]
          exact ih _
        · rw [vPlace_cons_grow p ss hf s y a m g hv hs' hg,
            vPlace_cons_grow p ss hf s y b m' g (hvis.symm.trans hv) (hsp.symm.trans hs')
              (hgr.symm.trans hg)]
          refine List.Forall₂.cons ⟨hvis, hmw, hmh, hgr, hsp, rfl, by rw [hmh]; rfl⟩ ?_
          rw [hmh]
          exact ih _
    · have hv' : a.visible = false := by simpa using hv
      rw [vPlace_cons_invisible p ss hf s y a m hv',
        vPlace_cons_invisible p ss hf s y b m' (hvis.symm.trans hv')]
      exact List.Forall₂.cons ⟨hvis, hmw, hmh, hgr, hsp, hpos, hsz⟩ (ih _)

theorem vLayout_congr (p : ℚ) (s : Size) {l l' : List Child}
    (h : List.Forall₂ sameV l l') :
    List.Forall₂ sameV (vBoxLayout.Layout p l s) (vBoxLayout.Layout p l' s) := by
  obtain ⟨h1, h2, h3, h4, h5⟩ := vMeasure_congr s h
  unfold vBoxLayout.Layout
  have hex : vExtra p l s = vExtra p l' s := by simp [vExtra, h2, h3]
  have hpf : vPerFactor p l s = vPerFactor p l' s := by simp [vPerFactor, h4, hex]
  have hss : vSpacerSize p l s = vSpacerSize p l' s := by simp [vSpacerSize, h1, hex]
  rw [hpf, hss]
  exact vPlace_congr _ _ _ _ h5 0

theorem vMinSizeLoop_congr (p : ℚ) {l l' : List Child}
    (h : List.Forall₂ sameV l l') (flag : Bool) (acc : Size) :
    vMinSizeLoop p flag acc l = vMinSizeLoop p flag acc l' := by
  induction h generalizing flag acc with
  | nil => rfl
  | @cons a b l l' hab hll ih =>
    obtain ⟨hvis, hmw, hmh, hgr, hsp, hpos, hsz⟩ := hab
    by_cases hskip : a.visible = false ∨ isVerticalSpacer a = true
    · rw [vMinSizeLoop_cons_skip p flag acc a l hskip,
        vMinSizeLoop_cons_skip p flag acc b l'
          (by rcases hskip with hh | hh
              · exact Or.inl (hvis.symm.trans hh)
              · exact Or.inr (hsp.symm.trans hh))]
      exact ih _ _
    · push_neg at hskip
      obtain ⟨hv, hs⟩ := hskip
      have hv' : a.visible = true := by simpa using hv
      have hs' : isVerticalSpacer a = false := by simpa using hs
      rw [vMinSizeLoop_cons_keep p flag acc a l hv' hs',
        vMinSizeLoop_cons_keep p flag acc b l' (hvis.symm.trans hv') (hsp.symm.trans hs'),
        hmw, hmh]
      exact ih _ _

theorem foldl_max_zero_mem (l : List ℚ) (hne : l ≠ []) (hnn : ∀ a ∈ l, 0 ≤ a) :
    l.foldl max 0 ∈ l := by
  rcases List.mem_cons.mp (foldl_max_mem 0 l) with h | h
  · match l, hne with
    | a :: l, _ =>
      have ha : a ≤ (a :: l).foldl max 0 := le_foldl_max 0 _ a (List.mem_cons_self _ _)
      rw [h] at ha
      have ha0 : a = 0 := le_antisymm ha (hnn a (List.mem_cons_self _ _))
      rw [h, ← ha0]
      exact List.mem_cons_self _ _
  · exact h

theorem vKeep_swap (c : Child) : vKeep c.swap = hKeep c := by
  cases hc : c.spacer <;>
    simp [vKeep, hKeep, isVerticalSpacer, isHorizontalSpacer, Child.swap, hc]

theorem filter_vKeep_map_swap (l : List Child) :
    (l.map Child.swap).filter vKeep = (l.filter hKeep).map Child.swap := by
  rw [List.filter_map]
  congr 1
  apply List.filter_congr
  intro c _
  exact vKeep_swap c

theorem vMinSize_keep (p : ℚ) (l : List Child) :
    vBoxLayout.MinSize p l = vBoxLayout.MinSize p (l.filter vKeep) :=
  (vMinSizeLoop_filter_keep p false ⟨0, 0⟩ l).symm

theorem Child.minWidth_swap (c : Child) : c.swap.minWidth = c.minHeight := rfl

theorem Child.minHeight_swap (c : Child) : c.swap.minHeight = c.minWidth := rfl

theorem vMinSize_empty_keep (p : ℚ) (l : List Child) (h : l.filter vKeep = []) :
    vBoxLayout.MinSize p l = ⟨0, 0⟩ := by
  rw [vMinSize_keep p l, h]
  rfl

theorem vMinSize_nonempty_keep (p : ℚ) (l : List Child) (h : l.filter vKeep ≠ []) :
    vBoxLayout.MinSize p l =
      ⟨((l.filter vKeep).map (fun c => c.minWidth)).foldl max 0,
       ((l.filter vKeep).map (fun c => c.minHeight)).sum +
         p * (((l.filter vKeep).length : ℚ) - 1)⟩ := by
  rw [vMinSize_keep p l]
  exact vMinSize_formula p _ (fun c hc => List.of_mem_filter hc) h

theorem vMinSize_width_ub (p : ℚ) (l : List Child) :
    ∀ c ∈ l.filter vKeep, c.minWidth ≤ (vBoxLayout.MinSize p l).width := by
  intro c hc
  rw [vMinSize_nonempty_keep p l (List.ne_nil_of_mem hc)]
  exact le_foldl_max 0 _ c.minWidth (List.mem_map_of_mem _ hc)

theorem vMinSize_width_attained (p : ℚ) (l : List Child)
    (hnn : ∀ c ∈ l.filter vKeep, 0 ≤ c.minWidth) (hne : l.filter vKeep ≠ []) :
    (vBoxLayout.MinSize p l).width ∈ (l.filter vKeep).map (fun c => c.minWidth) := by
  rw [vMinSize_nonempty_keep p l hne]
  apply foldl_max_zero_mem
  · simpa using hne
  · intro a ha
    obtain ⟨c, hc, rfl⟩ := List.mem_map.mp ha
    exact hnn c hc

/-! ### Claims -/

/-- C7: for every invisible child and every MinSize or Layout call, the child
contributes no size and no padding gap to the result (dropping all invisible
children changes neither the measured minimum size nor the produced layout of
the visible children), and the Layout call never moves or resizes it (the
output at an invisible child's position is the unchanged input child). -/
theorem invisible_children_fully_excluded (p : ℚ) (l : List Child) (s : Size) :
    vBoxLayout.MinSize p (l.filter (fun c => c.visible)) = vBoxLayout.MinSize p l ∧
      vBoxLayout.Layout p (l.filter (fun c => c.visible)) s =
        (vBoxLayout.Layout p l s).filter (fun c => c.visible) ∧
      List.Forall₂ (fun a b => a.visible = false → b = a) l (vBoxLayout.Layout p l s) :=
  ⟨vMinSizeLoop_filter_visible p false ⟨0, 0⟩ l, vLayout_filter_visible p l s,
    List.Forall₂.imp (fun _ _ hab h => hab.2.2 (Or.inl h)) (vLayout_untouched p l s)⟩

/-- C7 witness: a concrete Layout call with one invisible child between two
visible ones. -/
theorem invisible_children_fully_excluded_witness :
    vBoxLayout.MinSize 5
        (([⟨true, 7, 20, none, none, ⟨0, 0⟩, ⟨0, 0⟩⟩,
           ⟨false, 9, 30, none, none, ⟨1, 2⟩, ⟨3, 4⟩⟩,
           ⟨true, 7, 40, none, none, ⟨0, 0⟩, ⟨0, 0⟩⟩] : List Child).filter
          (fun c => c.visible)) =
      vBoxLayout.MinSize 5
        [⟨true, 7, 20, none, none, ⟨0, 0⟩, ⟨0, 0⟩⟩,
         ⟨false, 9, 30, none, none, ⟨1, 2⟩, ⟨3, 4⟩⟩,
         ⟨true, 7, 40, none, none, ⟨0, 0⟩, ⟨0, 0⟩⟩] :=
  (invisible_children_fully_excluded 5
    [⟨true, 7, 20, none, none, ⟨0, 0⟩, ⟨0, 0⟩⟩,
     ⟨false, 9, 30, none, none, ⟨1, 2⟩, ⟨3, 4⟩⟩,
     ⟨true, 7, 40, none, none, ⟨0, 0⟩, ⟨0, 0⟩⟩] ⟨100, 210⟩).1

/-- C5: after every Layout call, every visible non-spacer child's cross-axis
size equals the container's cross-axis dimension exactly: full width in
vertical mode, full height in horizontal mode. -/
theorem cross_axis_matches_container (p : ℚ) (l : List Child) (s : Size) :
    (∀ c ∈ vBoxLayout.Layout p l s, c.visible = true → isVerticalSpacer c = false →
        c.size.width = s.width) ∧
      (∀ c ∈ hBoxLayout.Layout p l s, c.visible = true → isHorizontalSpacer c = false →
        c.size.height = s.height) := by
  refine ⟨vLayout_width p l s, ?_⟩
  intro c hc hv hs
  rw [hLayout_swap] at hc
  obtain ⟨b, hb, rfl⟩ := List.mem_map.mp hc
  have h2 : isVerticalSpacer b = false := (isHorizontalSpacer_swap b).symm.trans hs
  exact vLayout_width p (l.map Child.swap) s.swap b hb hv h2

/-- C5 witness: a visible ordinary child with minimum width 7 gets width 100
in a width-100 vertical container. -/
theorem cross_axis_matches_container_witness :
    (⟨true, 7, 20, none, none, ⟨0, 0⟩, ⟨100, 20⟩⟩ : Child).size.width = 100 :=
  (cross_axis_matches_container 5 [⟨true, 7, 20, none, none, ⟨3, 4⟩, ⟨5, 6⟩⟩]
      ⟨100, 210⟩).1
    ⟨true, 7, 20, none, none, ⟨0, 0⟩, ⟨100, 20⟩⟩
    (by norm_num [vBoxLayout.Layout, vMeasure, vPlace, vExtra, vPerFactor, vSpacerSize,
      isVerticalSpacer, Child.resize, Child.move])
    rfl rfl

/-- C9: the horizontal variant is the vertical one with the two axes (x/y,
width/height, and the spacer expansion direction) swapped, for both Layout
and MinSize. -/
theorem axis_mirror_equivalence (p : ℚ) (l : List Child) (s : Size) :
    hBoxLayout.Layout p l s =
        (vBoxLayout.Layout p (l.map Child.swap) s.swap).map Child.swap ∧
      hBoxLayout.MinSize p l = (vBoxLayout.MinSize p (l.map Child.swap)).swap :=
  ⟨hLayout_swap p l s, hMinSize_swap p l⟩

/-- C4: MinSize of visible non-spacer children with main-axis minimums
`m1..mN`, cross-axis minimums `c1..cN` and padding `p` is main-axis
`Σ mi + p × (N − 1)` and cross-axis `max ci` (the running maximum starting
from 0, which is the attained maximum when the minimums are non-negative);
with zero visible non-spacer children it is `(0, 0)`. Both variants. -/
theorem minSize_additivity (p : ℚ) (l : List Child) :
    (l.filter vKeep = [] → vBoxLayout.MinSize p l = ⟨0, 0⟩) ∧
      (l.filter vKeep ≠ [] →
        vBoxLayout.MinSize p l =
          ⟨((l.filter vKeep).map (fun c => c.minWidth)).foldl max 0,
           ((l.filter vKeep).map (fun c => c.minHeight)).sum +
             p * (((l.filter vKeep).length : ℚ) - 1)⟩) ∧
      (∀ c ∈ l.filter vKeep, c.minWidth ≤ (vBoxLayout.MinSize p l).width) ∧
      ((∀ c ∈ l.filter vKeep, 0 ≤ c.minWidth) → l.filter vKeep ≠ [] →
        (vBoxLayout.MinSize p l).width ∈ (l.filter vKeep).map (fun c => c.minWidth)) ∧
      (l.filter hKeep = [] → hBoxLayout.MinSize p l = ⟨0, 0⟩) ∧
      (l.filter hKeep ≠ [] →
        hBoxLayout.MinSize p l =
          ⟨((l.filter hKeep).map (fun c => c.minWidth)).sum +
             p * (((l.filter hKeep).length : ℚ) - 1),
           ((l.filter hKeep).map (fun c => c.minHeight)).foldl max 0⟩) ∧
      (∀ c ∈ l.filter hKeep, c.minHeight ≤ (hBoxLayout.MinSize p l).height) ∧
      ((∀ c ∈ l.filter hKeep, 0 ≤ c.minHeight) → l.filter hKeep ≠ [] →
        (hBoxLayout.MinSize p l).height ∈ (l.filter hKeep).map (fun c => c.minHeight)) := by
  have hswf : (l.map Child.swap).filter vKeep = (l.filter hKeep).map Child.swap :=
    filter_vKeep_map_swap l
  refine ⟨vMinSize_empty_keep p l, vMinSize_nonempty_keep p l, vMinSize_width_ub p l,
    vMinSize_width_attained p l, ?_, ?_, ?_, ?_⟩
  · intro h
    rw [hMinSize_swap p l, vMinSize_empty_keep p _ (by rw [hswf, h]; rfl)]
    rfl
  · intro hne
    rw [hMinSize_swap p l, vMinSize_nonempty_keep p _ (by simp [hswf, hne])]
    rw [hswf]
    simp only [List.map_map, List.length_map]
    have hw : (fun c => c.minWidth) ∘ Child.swap = fun (c : Child) => c.minHeight := rfl
    have hh : (fun c => c.minHeight) ∘ Child.swap = fun (c : Child) => c.minWidth := rfl
    rw [hw, hh]
    rfl
  · intro c hc
    have hmem : c.swap ∈ (l.map Child.swap).filter vKeep := by
      rw [hswf]
      exact List.mem_map_of_mem _ hc
    have h := vMinSize_width_ub p (l.map Child.swap) c.swap hmem
    rw [hMinSize_swap p l]
    exact h
  · intro hnn hne
    have h := vMinSize_width_attained p (l.map Child.swap) ?_ ?_
    · rw [hswf, List.map_map] at h
      have hw : (fun c => c.minWidth) ∘ Child.swap = fun (c : Child) => c.minHeight := rfl
      rw [hw] at h
      rw [hMinSize_swap p l]
      exact h
    · intro c hc
      rw [hswf] at hc
      obtain ⟨d, hd, rfl⟩ := List.mem_map.mp hc
      exact hnn d hd
    · simp [hswf, hne]

/-- C4 witness: the spec scenario — padding 5, three ordinary children with
minimum sizes (7,20), (7,30), (7,40). -/
theorem minSize_additivity_witness :
    vBoxLayout.MinSize 5
        [⟨true, 7, 20, none, none, ⟨0, 0⟩, ⟨0, 0⟩⟩,
         ⟨true, 7, 30, none, none, ⟨0, 0⟩, ⟨0, 0⟩⟩,
         ⟨true, 7, 40, none, none, ⟨0, 0⟩, ⟨0, 0⟩⟩] = ⟨7, 100⟩ := by
  have h := (minSize_additivity 5
    [⟨true, 7, 20, none, none, ⟨0, 0⟩, ⟨0, 0⟩⟩,
     ⟨true, 7, 30, none, none, ⟨0, 0⟩, ⟨0, 0⟩⟩,
     ⟨true, 7, 40, none, none, ⟨0, 0⟩, ⟨0, 0⟩⟩]).2.1
    (by simp [vKeep, isVerticalSpacer])
  rw [h]
  norm_num [vKeep, isVerticalSpacer]

/-- C2: the code does NOT give a zero-minimum growable child a positive share
of positive leftover space: in this Layout call the leftover space is 10 > 0,
the first child is visible, growable with factor 1 and minimum height 0, yet
its final height is 0 — the place pass multiplies the per-weight share by the
unclamped minimum height. -/
theorem zero_min_growable_starved :
    0 < vExtra 0 [⟨true, 5, 0, some 1, none, ⟨0, 0⟩, ⟨0, 0⟩⟩,
        ⟨true, 5, 10, none, none, ⟨0, 0⟩, ⟨0, 0⟩⟩] ⟨10, 20⟩ ∧
      0 < (vMeasure ⟨10, 20⟩ [⟨true, 5, 0, some 1, none, ⟨0, 0⟩, ⟨0, 0⟩⟩,
        ⟨true, 5, 10, none, none, ⟨0, 0⟩, ⟨0, 0⟩⟩]).growFactors ∧
      (vBoxLayout.Layout 0 [⟨true, 5, 0, some 1, none, ⟨0, 0⟩, ⟨0, 0⟩⟩,
          ⟨true, 5, 10, none, none, ⟨0, 0⟩, ⟨0, 0⟩⟩] ⟨10, 20⟩).map
          (fun c => c.size.height) = [0, 10] := by
  refine ⟨?_, ?_, ?_⟩
  · norm_num [vExtra, vMeasure, isVerticalSpacer]
  · norm_num [vMeasure, isVerticalSpacer]
  · norm_num [vBoxLayout.Layout, vMeasure, vPlace, vExtra, vPerFactor, vSpacerSize,
      isVerticalSpacer, Child.resize, Child.move]

/-- C3: when both visible spacers and growable weight are present, the two
distribution pools are independent and each consumes the same raw `extra`:
the spacer advance is `extra / spacerCount` and the per-weight-unit share is
`extra / totalWeight`; moreover each formula is unchanged by emptying the
other pool (removing all visible spacers, or stripping every growable
capability). -/
theorem distribution_pools_independent (p : ℚ) (l : List Child) (s : Size)
    (hsp : 0 < (vMeasure s l).spacers)
    (hgf : 0 < (vMeasure s l).growFactors) :
    vSpacerSize p l s = vExtra p l s / ((vMeasure s l).spacers : ℚ) ∧
      vPerFactor p l s = vExtra p l s / (vMeasure s l).growFactors ∧
      (∀ (y : ℚ) (c : Child) (rest : List Child), c.visible = true →
        isVerticalSpacer c = true →
        vPlace p (vSpacerSize p l s) (vPerFactor p l s) s y (c :: rest) =
          c :: vPlace p (vSpacerSize p l s) (vPerFactor p l s) s
            (y + vSpacerSize p l s) rest) ∧
      vPerFactor p (l.filter noVSpacer) s = vPerFactor p l s ∧
      vSpacerSize p (l.map stripGrow) s = vSpacerSize p l s := by
  refine ⟨by simp [vSpacerSize, hsp], by simp [vPerFactor, hgf], ?_,
    vPerFactor_filter_noVSpacer p l s, vSpacerSize_stripGrow p l s⟩
  intro y c rest hv hs
  exact vPlace_cons_spacer _ _ _ _ _ _ _ hv hs

/-- C3 witness: one ordinary child, one spacer and one growable child. -/
theorem distribution_pools_independent_witness :
    vSpacerSize 0 [⟨true, 5, 10, none, none, ⟨0, 0⟩, ⟨0, 0⟩⟩,
        ⟨true, 0, 0, none, some (true, true), ⟨0, 0⟩, ⟨0, 0⟩⟩,
        ⟨true, 5, 2, some 1, none, ⟨0, 0⟩, ⟨0, 0⟩⟩] ⟨10, 20⟩ =
      vExtra 0 [⟨true, 5, 10, none, none, ⟨0, 0⟩, ⟨0, 0⟩⟩,
        ⟨true, 0, 0, none, some (true, true), ⟨0, 0⟩, ⟨0, 0⟩⟩,
        ⟨true, 5, 2, some 1, none, ⟨0, 0⟩, ⟨0, 0⟩⟩] ⟨10, 20⟩ /
      ((vMeasure ⟨10, 20⟩ [⟨true, 5, 10, none, none, ⟨0, 0⟩, ⟨0, 0⟩⟩,
        ⟨true, 0, 0, none, some (true, true), ⟨0, 0⟩, ⟨0, 0⟩⟩,
        ⟨true, 5, 2, some 1, none, ⟨0, 0⟩, ⟨0, 0⟩⟩]).spacers : ℚ) ∧
    vPerFactor 0 [⟨true, 5, 10, none, none, ⟨0, 0⟩, ⟨0, 0⟩⟩,
        ⟨true, 0, 0, none, some (true, true), ⟨0, 0⟩, ⟨0, 0⟩⟩,
        ⟨true, 5, 2, some 1, none, ⟨0, 0⟩, ⟨0, 0⟩⟩] ⟨10, 20⟩ =
      vExtra 0 [⟨true, 5, 10, none, none, ⟨0, 0⟩, ⟨0, 0⟩⟩,
        ⟨true, 0, 0, none, some (true, true), ⟨0, 0⟩, ⟨0, 0⟩⟩,
        ⟨true, 5, 2, some 1, none, ⟨0, 0⟩, ⟨0, 0⟩⟩] ⟨10, 20⟩ /
      (vMeasure ⟨10, 20⟩ [⟨true, 5, 10, none, none, ⟨0, 0⟩, ⟨0, 0⟩⟩,
        ⟨true, 0, 0, none, some (true, true), ⟨0, 0⟩, ⟨0, 0⟩⟩,
        ⟨true, 5, 2, some 1, none, ⟨0, 0⟩, ⟨0, 0⟩⟩]).growFactors := by
  have h := distribution_pools_independent 0
    [⟨true, 5, 10, none, none, ⟨0, 0⟩, ⟨0, 0⟩⟩,
     ⟨true, 0, 0, none, some (true, true), ⟨0, 0⟩, ⟨0, 0⟩⟩,
     ⟨true, 5, 2, some 1, none, ⟨0, 0⟩, ⟨0, 0⟩⟩] ⟨10, 20⟩
    (by norm_num [vMeasure, isVerticalSpacer])
    (by norm_num [vMeasure, isVerticalSpacer])
  exact ⟨h.1, h.2.1⟩

/-- C6: when the container's main-axis size is smaller than the aggregate
minimum plus padding, `extra` is negative and is still fed unchanged into the
spacer and growable distribution formulas — no clamping, in either variant. -/
theorem negative_extra_unclamped (p : ℚ) (l : List Child) (s : Size)
    (hneg : s.height < (vMeasure s l).totalMinHights +
      p * (((vMeasure s l).visibleObjects : ℚ) - 1)) :
    vExtra p l s < 0 ∧
      (0 < (vMeasure s l).spacers →
        vSpacerSize p l s = vExtra p l s / ((vMeasure s l).spacers : ℚ)) ∧
      (0 < (vMeasure s l).growFactors →
        vPerFactor p l s = vExtra p l s / (vMeasure s l).growFactors) ∧
      (s.width < (hMeasure s l).totalMinWidths +
          p * (((hMeasure s l).visibleObjects : ℚ) - 1) →
        hExtra p l s < 0 ∧
          (0 < (hMeasure s l).spacers →
            hSpacerSize p l s = hExtra p l s / ((hMeasure s l).spacers : ℚ)) ∧
          (0 < (hMeasure s l).growFactors →
            hPerFactor p l s = hExtra p l s / (hMeasure s l).growFactors)) := by
  refine ⟨by unfold vExtra; linarith, fun h => by simp [vSpacerSize, h],
    fun h => by simp [vPerFactor, h], fun hneg' => ?_⟩
  exact ⟨by unfold hExtra; linarith, fun h => by simp [hSpacerSize, h],
    fun h => by simp [hPerFactor, h]⟩

/-- C6 witness: a 20-tall container that must hold children of total minimum
height 30, with one spacer and one growable child: `extra = −10` flows into
both formulas. -/
theorem negative_extra_unclamped_witness :
    vExtra 0 [⟨true, 5, 10, none, none, ⟨0, 0⟩, ⟨0, 0⟩⟩,
        ⟨true, 0, 0, none, some (true, true), ⟨0, 0⟩, ⟨0, 0⟩⟩,
        ⟨true, 5, 20, some 1, none, ⟨0, 0⟩, ⟨0, 0⟩⟩] ⟨10, 20⟩ < 0 ∧
      vSpacerSize 0 [⟨true, 5, 10, none, none, ⟨0, 0⟩, ⟨0, 0⟩⟩,
          ⟨true, 0, 0, none, some (true, true), ⟨0, 0⟩, ⟨0, 0⟩⟩,
          ⟨true, 5, 20, some 1, none, ⟨0, 0⟩, ⟨0, 0⟩⟩] ⟨10, 20⟩ =
        vExtra 0 [⟨true, 5, 10, none, none, ⟨0, 0⟩, ⟨0, 0⟩⟩,
          ⟨true, 0, 0, none, some (true, true), ⟨0, 0⟩, ⟨0, 0⟩⟩,
          ⟨true, 5, 20, some 1, none, ⟨0, 0⟩, ⟨0, 0⟩⟩] ⟨10, 20⟩ /
        ((vMeasure ⟨10, 20⟩ [⟨true, 5, 10, none, none, ⟨0, 0⟩, ⟨0, 0⟩⟩,
          ⟨true, 0, 0, none, some (true, true), ⟨0, 0⟩, ⟨0, 0⟩⟩,
          ⟨true, 5, 20, some 1, none, ⟨0, 0⟩, ⟨0, 0⟩⟩]).spacers : ℚ) := by
  have h := negative_extra_unclamped 0
    [⟨true, 5, 10, none, none, ⟨0, 0⟩, ⟨0, 0⟩⟩,
     ⟨true, 0, 0, none, some (true, true), ⟨0, 0⟩, ⟨0, 0⟩⟩,
     ⟨true, 5, 20, some 1, none, ⟨0, 0⟩, ⟨0, 0⟩⟩] ⟨10, 20⟩
    (by norm_num [vMeasure, isVerticalSpacer])
  exact ⟨h.1, h.2.1 (by norm_num [vMeasure, isVerticalSpacer])⟩

/-- C8: no spacer child is ever moved or resized; each visible spacer only
advances the placement cursor, by exactly `extra / spacerCount`; and no
visible child's size changes due to the presence of spacers (the sizes in the
layout equal the sizes in the layout of the same children with all visible
vertical spacers removed). -/
theorem spacers_only_advance_cursor (p : ℚ) (l : List Child) (s : Size)
    (hsp : 0 < (vMeasure s l).spacers) :
    List.Forall₂ (fun a b => isVerticalSpacer a = true → b = a) l
        (vBoxLayout.Layout p l s) ∧
      vSpacerSize p l s = vExtra p l s / ((vMeasure s l).spacers : ℚ) ∧
      (∀ (y : ℚ) (c : Child) (rest : List Child), c.visible = true →
        isVerticalSpacer c = true →
        vPlace p (vSpacerSize p l s) (vPerFactor p l s) s y (c :: rest) =
          c :: vPlace p (vSpacerSize p l s) (vPerFactor p l s) s
            (y + vSpacerSize p l s) rest) ∧
      ((vBoxLayout.Layout p l s).filter noVSpacer).map (fun c => c.size) =
        (vBoxLayout.Layout p (l.filter noVSpacer) s).map (fun c => c.size) := by
  refine ⟨List.Forall₂.imp (fun _ _ hab h => hab.2.2 (Or.inr h)) (vLayout_untouched p l s),
    by simp [vSpacerSize, hsp], ?_, vLayout_sizes_noVSpacer p l s⟩
  intro y c rest hv hs
  exact vPlace_cons_spacer _ _ _ _ _ _ _ hv hs

/-- C8 witness: the spec scenario turned vertical — two ordinary children of
heights 10 and 20 around one spacer, container height 100, padding 5:
the spacer share is the whole `extra = 65`. -/
theorem spacers_only_advance_cursor_witness :
    vSpacerSize 5 [⟨true, 3, 10, none, none, ⟨0, 0⟩, ⟨0, 0⟩⟩,
        ⟨true, 0, 0, none, some (false, true), ⟨0, 0⟩, ⟨0, 0⟩⟩,
        ⟨true, 3, 20, none, none, ⟨0, 0⟩, ⟨0, 0⟩⟩] ⟨50, 100⟩ =
      vExtra 5 [⟨true, 3, 10, none, none, ⟨0, 0⟩, ⟨0, 0⟩⟩,
        ⟨true, 0, 0, none, some (false, true), ⟨0, 0⟩, ⟨0, 0⟩⟩,
        ⟨true, 3, 20, none, none, ⟨0, 0⟩, ⟨0, 0⟩⟩] ⟨50, 100⟩ /
      ((vMeasure ⟨50, 100⟩ [⟨true, 3, 10, none, none, ⟨0, 0⟩, ⟨0, 0⟩⟩,
        ⟨true, 0, 0, none, some (false, true), ⟨0, 0⟩, ⟨0, 0⟩⟩,
        ⟨true, 3, 20, none, none, ⟨0, 0⟩, ⟨0, 0⟩⟩]).spacers : ℚ) :=
  (spacers_only_advance_cursor 5
    [⟨true, 3, 10, none, none, ⟨0, 0⟩, ⟨0, 0⟩⟩,
     ⟨true, 0, 0, none, some (false, true), ⟨0, 0⟩, ⟨0, 0⟩⟩,
     ⟨true, 3, 20, none, none, ⟨0, 0⟩, ⟨0, 0⟩⟩] ⟨50, 100⟩
    (by norm_num [vMeasure, isVerticalSpacer])).2.1

/-- C10: a child with the spacer capability that expands only along the cross
axis (`ExpandVertical() = false` in a vertical box) is not a vertical spacer,
and MinSize and Layout handle it exactly like the same child without the
spacer capability — an ordinary or growable child that is counted,
contributes its minimum size and padding gap, and is moved and resized. -/
theorem cross_only_spacer_is_ordinary (p : ℚ) (s : Size) (l1 l2 : List Child)
    (c : Child) (eh : Bool) (hc : c.spacer = some (eh, false)) :
    isVerticalSpacer c = false ∧
      vBoxLayout.MinSize p (l1 ++ c :: l2) =
        vBoxLayout.MinSize p (l1 ++ { c with spacer := none } :: l2) ∧
      List.Forall₂ sameV (vBoxLayout.Layout p (l1 ++ c :: l2) s)
        (vBoxLayout.Layout p (l1 ++ { c with spacer := none } :: l2) s) := by
  have hvs : isVerticalSpacer c = false := by simp [isVerticalSpacer, hc]
  have hcc : sameV c { c with spacer := none } :=
    ⟨rfl, rfl, rfl, rfl, by simp [isVerticalSpacer, hc], rfl, rfl⟩
  have hF : List.Forall₂ sameV (l1 ++ c :: l2) (l1 ++ { c with spacer := none } :: l2) :=
    List.rel_append (List.forall₂_same.mpr fun x _ => sameV_refl x)
      (List.Forall₂.cons hcc (List.forall₂_same.mpr fun x _ => sameV_refl x))
  exact ⟨hvs, vMinSizeLoop_congr p hF false ⟨0, 0⟩, vLayout_congr p s hF⟩

/-- C10 witness: a visible horizontal-only spacer in a vertical box,
followed by an ordinary child, measures exactly like the child with the
capability removed. -/
theorem cross_only_spacer_is_ordinary_witness :
    vBoxLayout.MinSize 2
        ([] ++ (⟨true, 5, 10, none, some (true, false), ⟨0, 0⟩, ⟨0, 0⟩⟩ : Child) ::
          [⟨true, 4, 20, none, none, ⟨0, 0⟩, ⟨0, 0⟩⟩]) =
      vBoxLayout.MinSize 2
        ([] ++ (⟨true, 5, 10, none, none, ⟨0, 0⟩, ⟨0, 0⟩⟩ : Child) ::
          [⟨true, 4, 20, none, none, ⟨0, 0⟩, ⟨0, 0⟩⟩]) :=
  (cross_only_spacer_is_ordinary 2 ⟨30, 40⟩ []
    [⟨true, 4, 20, none, none, ⟨0, 0⟩, ⟨0, 0⟩⟩]
    ⟨true, 5, 10, none, some (true, false), ⟨0, 0⟩, ⟨0, 0⟩⟩ true rfl).2.1

/-- C1 counterexample: two visible growable children with grow factors 1 and
3 and equal minimum height `m = 1/2`, padding 0, leftover space 8. The claim
predicts additional sizes `8/4 = 2` and `3×8/4 = 6` (final heights `5/2` and
`13/2`), but the weight clamp `max(m, 1)` makes the actual final heights
`3/2` and `7/2`. -/
theorem two_growables_quarter_split_cex :
    ((vBoxLayout.Layout 0 [⟨true, 7, 1/2, some 1, none, ⟨0, 0⟩, ⟨0, 0⟩⟩,
        ⟨true, 7, 1/2, some 3, none, ⟨0, 0⟩, ⟨0, 0⟩⟩] ⟨10, 9⟩).filter
        (fun c => c.visible)).map (fun c => c.size.height) ≠
      [1/2 + (9 - (1/2 + 1/2) - 0) / 4, 1/2 + 3 * ((9 - (1/2 + 1/2) - 0) / 4)] := by
  norm_num [vBoxLayout.Layout, vMeasure, vPlace, vExtra, vPerFactor, vSpacerSize,
    isVerticalSpacer, Child.resize, Child.move]

/-- C1 (amended with `1 ≤ m`, which the counterexample above forces): for
every Layout call whose visible children are exactly two growable children
with grow factors 1 and 3 and equal minimum main-axis size `m ≥ 1`, and
leftover space `extra = H − 2m − p`, the first child's final height is
`m + extra/4` and the second's is `m + 3×extra/4`. -/
theorem two_growables_quarter_split (p W H m : ℚ) (l : List Child)
    (c1 c2 : Child) (hf : l.filter (fun c => c.visible) = [c1, c2])
    (h1s : isVerticalSpacer c1 = false) (h2s : isVerticalSpacer c2 = false)
    (h1g : c1.grow = some 1) (h2g : c2.grow = some 3)
    (h1m : c1.minHeight = m) (h2m : c2.minHeight = m) (hm : 1 ≤ m) :
    ((vBoxLayout.Layout p l ⟨W, H⟩).filter (fun c => c.visible)).map
        (fun c => c.size.height) =
      [m + (H - (m + m) - p) / 4, m + 3 * ((H - (m + m) - p) / 4)] := by
  have h1v : c1.visible = true := by
    have h : c1 ∈ l.filter (fun c => c.visible) := hf ▸ List.mem_cons_self _ _
    simpa using (List.mem_filter.mp h).2
  have h2v : c2.visible = true := by
    have h : c2 ∈ l.filter (fun c => c.visible) :=
      hf ▸ List.mem_cons_of_mem _ (List.mem_cons_self _ _)
    simpa using (List.mem_filter.mp h).2
  have hm0 : (0 : ℚ) < m := lt_of_lt_of_le zero_lt_one hm
  have hmax : max m (1 : ℚ) = m := max_eq_left hm
  rw [← vLayout_filter_visible, hf]
  have hmeas : vMeasure ⟨W, H⟩ [c1, c2] = ⟨0, 2, m + m, 3 * m + 1 * m, [c1, c2]⟩ := by
    rw [vMeasure_cons_grow _ c1 [c2] 1 h1v h1s h1g,
      vMeasure_cons_grow _ c2 [] 3 h2v h2s h2g]
    simp [vMeasure, h1m, h2m, hmax]
  have hex : vExtra p [c1, c2] ⟨W, H⟩ = H - (m + m) - p := by
    rw [vExtra, hmeas]
    norm_num
  have hpf : vPerFactor p [c1, c2] ⟨W, H⟩ = (H - (m + m) - p) / (4 * m) := by
    rw [vPerFactor, hmeas, hex]
    have h4 : (0 : ℚ) < 3 * m + 1 * m := by linarith
    rw [if_pos h4]
    ring_nf
  unfold vBoxLayout.Layout
  rw [hmeas, hpf]
  rw [vPlace_cons_grow _ _ _ _ _ c1 [c2] 1 h1v h1s h1g,
    vPlace_cons_grow _ _ _ _ _ c2 [] 3 h2v h2s h2g]
  simp only [vPlace, List.map_cons, List.map_nil, Child.move, Child.resize, h1m, h2m]
  have hne : m ≠ 0 := ne_of_gt hm0
  rw [show m + (H - (m + m) - p) / (4 * m) * 1 * m = m + (H - (m + m) - p) / 4 by
      field_simp; ring,
    show m + (H - (m + m) - p) / (4 * m) * 3 * m = m + 3 * ((H - (m + m) - p) / 4) by
      field_simp; ring]

/-- C1 witness: `m = 2`, padding 0, container height 10 (`extra = 6`):
final heights `2 + 6/4` and `2 + 3×6/4`. -/
theorem two_growables_quarter_split_witness :
    ((vBoxLayout.Layout 0 [⟨true, 7, 2, some 1, none, ⟨0, 0⟩, ⟨0, 0⟩⟩,
        ⟨true, 7, 2, some 3, none, ⟨0, 0⟩, ⟨0, 0⟩⟩] ⟨5, 10⟩).filter
        (fun c => c.visible)).map (fun c => c.size.height) =
      [2 + (10 - (2 + 2) - 0) / 4, 2 + 3 * ((10 - (2 + 2) - 0) / 4)] :=
  two_growables_quarter_split 0 5 10 2
    [⟨true, 7, 2, some 1, none, ⟨0, 0⟩, ⟨0, 0⟩⟩,
     ⟨true, 7, 2, some 3, none, ⟨0, 0⟩, ⟨0, 0⟩⟩]
    ⟨true, 7, 2, some 1, none, ⟨0, 0⟩, ⟨0, 0⟩⟩
    ⟨true, 7, 2, some 3, none, ⟨0, 0⟩, ⟨0, 0⟩⟩
    (by simp) rfl rfl rfl rfl rfl rfl (by norm_num)

end BoxLayout
